import Mathlib

/-!
Verification of the background task execution and resource-lifecycle subsystem
of the dochandler repository (src/background_processor.py, src/resource_manager.py).

The Python code is shallowly embedded:

* `Task`, `TaskType` mirror the dataclass and enum of background_processor.py.
  A task body (`func`) is identified by a numeric id `fid`; its behaviour is a
  parameter (`exec`) of the dispatch-loop embedding.  Keyword arguments and the
  callback are carried abstractly (the callback is abstract for every claim).
* The `PriorityQueue` of `BackgroundProcessor` stores `(priority, task)` pairs
  in a binary heap driven by CPython heapq.  `siftdownGo`, `siftupGo`,
  `heappush`, `heappop` are line-by-line translations of heapq._siftdown,
  heapq._siftup, heapq.heappush and heapq.heappop, including the part-way
  mutated list state left behind when an element comparison raises TypeError.
  Python compares `(priority, task)` tuples elementwise: equal priorities fall
  through to comparing two `Task` values, which define equality (dataclass)
  but no ordering, so `<` on distinct tasks raises TypeError; this is
  `entryLt`.
* `ResourceManager` (resource_manager.py) is embedded with an explicit
  filesystem state (paths with modification times).  `__init__` never assigns
  the `_temp_files_lock` attribute read by `manage_com_object`; attribute
  presence is modelled by the explicit attribute list `initAttrs`.
-/

namespace DocHandler

/-- TaskType enum of background_processor.py lines 13-16. -/
inductive TaskType where
  | FILE_CONVERSION
  | TEXT_EXTRACTION
  | FILE_ORGANIZATION
deriving DecidableEq, Repr

/-- A Python value that can appear in a task argument tuple: the dedup logic
only distinguishes strings (checked with isinstance) from everything else. -/
inductive Val where
  | str (s : String)
  | other (n : Nat)
deriving DecidableEq, Repr

/-- Task dataclass of background_processor.py lines 18-24.  `fid` stands for
the identity of the `func` callable; `callback` records only whether a
callback was supplied (its invocation is abstract). -/
structure Task where
  type : TaskType
  fid : Nat
  args : List Val
  callback : Bool
deriving DecidableEq, Repr

instance : Inhabited Task := ⟨⟨TaskType.FILE_CONVERSION, 0, [], false⟩⟩

/-- A queue entry: the `(priority, task)` tuple put on the PriorityQueue
(background_processor.py line 50). -/
abbrev Entry := Int × Task

/-- Python `<` on two `(priority, task)` tuples: elementwise comparison.
Distinct priorities compare on the integers; equal priorities fall through to
the `Task` values, and distinct tasks raise TypeError because the dataclass
defines no ordering (two equal tuples compare as not-less). -/
def entryLt (a b : Entry) : Except Unit Bool :=
  if a.1 = b.1 then
    if a.2 = b.2 then Except.ok false else Except.error ()
  else
    Except.ok (decide (a.1 < b.1))

/-- Outcome of a heap operation: either a result together with the new list
state, or a TypeError together with the part-way mutated list state the
CPython implementation leaves behind. -/
inductive HRes (α : Type) where
  | ok (heap : List Entry) (val : α)
  | typeErr (heap : List Entry)
deriving DecidableEq, Repr

/-- The list state carried by a heap-operation outcome. -/
def HRes.heap : HRes α → List Entry
  | .ok h _ => h
  | .typeErr h => h

/-- heapq._siftdown loop: walk `pos` toward `startpos`, moving parents down,
until the parent is not greater than `newitem`; finally store `newitem`.
A TypeError during the comparison leaves the list as mutated so far. -/
def siftdownGo (startpos : Nat) (newitem : Entry) (heap : List Entry) (pos : Nat) :
    HRes Unit :=
  if h : startpos < pos then
    let parentpos := (pos - 1) / 2
    let parent := heap.getD parentpos default
    match entryLt newitem parent with
    | Except.error _ => HRes.typeErr heap
    | Except.ok true => siftdownGo startpos newitem (heap.set pos parent) parentpos
    | Except.ok false => HRes.ok (heap.set pos newitem) ()
  else
    HRes.ok (heap.set pos newitem) ()
termination_by pos
decreasing_by omega

/-- heapq.heappush: append the item, then sift it down toward the root. -/
def heappush (heap : List Entry) (item : Entry) : HRes Unit :=
  siftdownGo 0 item (heap ++ [item]) heap.length

/-- heapq._siftup loop: bubble the hole at `pos` down to a leaf following the
smaller child, then place `newitem` and sift it back toward `startpos`. -/
def siftupGo (endpos : Nat) (newitem : Entry) (startpos : Nat) (heap : List Entry)
    (pos : Nat) : HRes Unit :=
  let childpos := 2 * pos + 1
  if h : childpos < endpos then
    let pick : Except Unit Nat :=
      if childpos + 1 < endpos then
        match entryLt (heap.getD childpos default) (heap.getD (childpos + 1) default) with
        | Except.error _ => Except.error ()
        | Except.ok lt => Except.ok (if lt then childpos else childpos + 1)
      else
        Except.ok childpos
    match hpick : pick with
    | Except.error _ => HRes.typeErr heap
    | Except.ok c => siftupGo endpos newitem startpos (heap.set pos (heap.getD c default)) c
  else
    siftdownGo startpos newitem (heap.set pos newitem) pos
termination_by endpos - pos
decreasing_by
  unfold_let pick at hpick
  unfold_let childpos at h hpick
  split at hpick
  · rename_i hrt
    split at hpick
    · exact Except.noConfusion hpick
    · injection hpick with hc
      subst hc
      split <;> omega
  · injection hpick with hc
    subst hc
    omega

/-- heapq._siftup entry point: `newitem = heap[pos]`, then the loop. -/
def siftup (heap : List Entry) (pos : Nat) : HRes Unit :=
  siftupGo heap.length (heap.getD pos default) pos heap pos

/-- heapq.heappop: pop the last element; if the list is still nonempty,
save the root as the return value, move the last element to the root and
sift it up.  `none` models the IndexError on an empty list (every caller in
background_processor.py guards against emptiness first). -/
def heappop (heap : List Entry) : Option (HRes Entry) :=
  if heap.isEmpty then none
  else
    let lastelt := heap.getLastD default
    let rest := heap.dropLast
    if rest.isEmpty then
      some (HRes.ok [] lastelt)
    else
      let returnitem := rest.getD 0 default
      match siftup (rest.set 0 lastelt) 0 with
      | HRes.ok h _ => some (HRes.ok h returnitem)
      | HRes.typeErr h => some (HRes.typeErr h)


/-- Sifting down never changes the length of the list. -/
theorem siftdownGo_heap_length (startpos : Nat) (newitem : Entry) :
    ∀ (pos : Nat) (heap : List Entry),
      ((siftdownGo startpos newitem heap pos).heap).length = heap.length := by
  intro pos
  induction pos using Nat.strong_induction_on with
  | _ pos ih =>
    intro heap
    rw [siftdownGo]
    by_cases hlt : startpos < pos
    · rw [dif_pos hlt]
      cases hel : entryLt newitem (heap[(pos - 1) / 2]?.getD default) with
      | error e => simp [hel, HRes.heap]
      | ok b =>
        cases b
        · simp [hel, HRes.heap]
        · have h2 := ih ((pos - 1) / 2) (by omega)
            (heap.set pos (heap[(pos - 1) / 2]?.getD default))
          simp at h2
          simpa [hel] using h2
    · rw [dif_neg hlt]
      simp [HRes.heap]

/-- Sifting up never changes the length of the list (gas-indexed form). -/
theorem siftupGo_heap_length_gas (endpos : Nat) (newitem : Entry) (startpos : Nat) :
    ∀ (gas : Nat) (heap : List Entry) (pos : Nat), endpos - pos ≤ gas →
      ((siftupGo endpos newitem startpos heap pos).heap).length = heap.length := by
  intro gas
  induction gas with
  | zero =>
    intro heap pos hg
    rw [siftupGo]
    rw [dif_neg (by omega)]
    have h2 := siftdownGo_heap_length startpos newitem pos (heap.set pos newitem)
    simp at h2
    simpa using h2
  | succ gas ih =>
    intro heap pos hg
    rw [siftupGo]
    by_cases hc : 2 * pos + 1 < endpos
    · rw [dif_pos hc]
      by_cases hr : 2 * pos + 1 + 1 < endpos
      · rw [if_pos hr]
        cases hel : entryLt (heap.getD (2 * pos + 1) default)
            (heap.getD (2 * pos + 1 + 1) default) with
        | error e => simp [hel, HRes.heap]
        | ok lt =>
          cases lt
          · have h2 := ih (heap.set pos (heap[2 * pos + 1 + 1]?.getD default))
              (2 * pos + 1 + 1) (by omega)
            simp at h2
            simpa [hel] using h2
          · have h2 := ih (heap.set pos (heap[2 * pos + 1]?.getD default))
              (2 * pos + 1) (by omega)
            simp at h2
            simpa [hel] using h2
      · rw [if_neg hr]
        have h2 := ih (heap.set pos (heap[2 * pos + 1]?.getD default))
          (2 * pos + 1) (by omega)
        simp at h2
        simpa using h2
    · rw [dif_neg hc]
      have h2 := siftdownGo_heap_length startpos newitem pos (heap.set pos newitem)
      simp at h2
      simpa using h2

/-- Sifting up never changes the length of the list. -/
theorem siftupGo_heap_length (endpos : Nat) (newitem : Entry) (startpos : Nat)
    (heap : List Entry) (pos : Nat) :
    ((siftupGo endpos newitem startpos heap pos).heap).length = heap.length :=
  siftupGo_heap_length_gas endpos newitem startpos endpos heap pos (by omega)

/-- The siftup entry point preserves the length. -/
theorem siftup_heap_length (heap : List Entry) (pos : Nat) :
    ((siftup heap pos).heap).length = heap.length := by
  unfold siftup
  exact siftupGo_heap_length heap.length (heap.getD pos default) pos heap pos

/-- heappop removes exactly one element, also when the sift raises TypeError. -/
theorem heappop_heap_length {heap : List Entry} {r : HRes Entry}
    (h : heappop heap = some r) : r.heap.length + 1 = heap.length := by
  unfold heappop at h
  simp only [] at h
  split at h
  · exact Option.noConfusion h
  · rename_i hne
    have h1 : heap.length ≠ 0 := fun hc =>
      hne (List.isEmpty_iff_length_eq_zero.mpr hc)
    have h3 := List.length_dropLast heap
    split at h
    · rename_i hre
      have h2 : heap.dropLast.length = 0 := List.isEmpty_iff_length_eq_zero.mp hre
      injection h with h
      subst h
      simp [HRes.heap]
      omega
    · rename_i hre
      split at h
      · rename_i hh hval hsift
        injection h with h
        subst h
        have hs := siftup_heap_length (heap.dropLast.set 0 (heap.getLastD default)) 0
        rw [hsift] at hs
        simp [HRes.heap] at hs ⊢
        omega
      · rename_i hh hsift
        injection h with h
        subst h
        have hs := siftup_heap_length (heap.dropLast.set 0 (heap.getLastD default)) 0
        rw [hsift] at hs
        simp [HRes.heap] at hs ⊢
        omega

/-- Additive reformulation of `List.countP_set`. -/
theorem countP_set_add (f : Entry → Bool) (l : List Entry) (i : Nat) (a : Entry)
    (h : i < l.length) :
    (l.set i a).countP f + (if f (l[i]?.getD default) then 1 else 0)
      = l.countP f + (if f a then 1 else 0) := by
  have h1 := List.countP_set f l i a h
  have h2 := List.boole_getElem_le_countP f l i h
  have h3 : l[i]?.getD default = l[i] := by
    simp [List.getElem?_eq_getElem h]
  rw [h3, h1]
  omega

/-- A successful siftdown permutes entries: it only replaces the hole at `pos`
by `newitem`, so any predicate count changes accordingly. -/
theorem siftdownGo_countP (f : Entry → Bool) (startpos : Nat) (newitem : Entry) :
    ∀ (pos : Nat) (heap : List Entry), pos < heap.length →
      ∀ h2, siftdownGo startpos newitem heap pos = HRes.ok h2 () →
        h2.countP f + (if f (heap[pos]?.getD default) then 1 else 0)
          = heap.countP f + (if f newitem then 1 else 0) := by
  intro pos
  induction pos using Nat.strong_induction_on with
  | _ pos ih =>
    intro heap hp h2 heq
    rw [siftdownGo] at heq
    simp only [List.getD_eq_getElem?_getD] at heq
    by_cases hlt : startpos < pos
    · rw [dif_pos hlt] at heq
      cases hel : entryLt newitem (heap[(pos - 1) / 2]?.getD default) with
      | error e =>
        simp only [hel] at heq
        exact HRes.noConfusion heq
      | ok b =>
        cases b
        · simp only [hel] at heq
          injection heq with ha hb
          subst ha
          exact countP_set_add f heap pos newitem hp
        · simp only [hel] at heq
          have hpar : (pos - 1) / 2 < pos := by omega
          have hplen : (pos - 1) / 2
              < (heap.set pos (heap[(pos - 1) / 2]?.getD default)).length := by
            simp
            omega
          have hmain := ih ((pos - 1) / 2) hpar _ hplen h2 heq
          have hne : pos ≠ (pos - 1) / 2 := by omega
          have hgd : (heap.set pos (heap[(pos - 1) / 2]?.getD default))[(pos - 1) / 2]?
              = heap[(pos - 1) / 2]? := List.getElem?_set_ne hne
          rw [hgd] at hmain
          have hset := countP_set_add f heap pos (heap[(pos - 1) / 2]?.getD default) hp
          omega
    · rw [dif_neg hlt] at heq
      injection heq with ha hb
      subst ha
      exact countP_set_add f heap pos newitem hp

/-- A successful heappush adds exactly the pushed item to the multiset of
entries, as measured by any Boolean predicate count. -/
theorem heappush_countP (f : Entry → Bool) {heap : List Entry} {item : Entry}
    {h2 : List Entry} (h : heappush heap item = HRes.ok h2 ()) :
    h2.countP f = heap.countP f + (if f item then 1 else 0) := by
  unfold heappush at h
  have hlen : heap.length < (heap ++ [item]).length := by simp
  have hmain := siftdownGo_countP f 0 item heap.length (heap ++ [item]) hlen h2 h
  have hgd : (heap ++ [item])[heap.length]?.getD default = item := by
    have : (heap ++ [item])[heap.length]? = some item := by
      rw [List.getElem?_eq_getElem hlen]
      simp
    rw [this]
    rfl
  rw [hgd] at hmain
  have happ : (heap ++ [item]).countP f = heap.countP f + (if f item then 1 else 0) := by
    simp [List.countP_append, List.countP_cons]
  rw [happ] at hmain
  omega

/-- The first positional argument of a task when it is a string, i.e. the
candidate dedup key: Python `task.args and isinstance(task.args[0], str)`. -/
def pathArg (t : Task) : Option String :=
  match t.args.head? with
  | some (Val.str s) => some s
  | _ => none

/-- Mutable state of a BackgroundProcessor (background_processor.py lines
31-36): the PriorityQueue backing list, the running flag and the
_processed_files set (modelled as a duplicate-free list). -/
structure BPState where
  task_queue : List Entry
  running : Bool
  processed_files : List String
deriving DecidableEq, Repr

/-- State created by BackgroundProcessor.__init__. -/
def BPState.init : BPState := ⟨[], true, []⟩

/-- BackgroundProcessor.is_processing_file (lines 53-61): scan the live queue
for an entry whose task has a string first argument equal to file_path. -/
def is_processing_file (q : List Entry) (file_path : String) : Bool :=
  q.any (fun item => pathArg item.2 == some file_path)

/-- Result of one add_task call: a dedup no-op (logged, nothing added), a
successful enqueue, or a TypeError escaping from task_queue.put.  Each
constructor carries the processor state after the call. -/
inductive AddRes where
  | noop (st : BPState)
  | added (st : BPState)
  | typeError (st : BPState)
deriving DecidableEq, Repr

/-- The processor state after an add_task call, whatever its outcome. -/
def AddRes.st : AddRes → BPState
  | .noop st => st
  | .added st => st
  | .typeError st => st

/-- BackgroundProcessor.add_task (lines 41-51).  `isfile` is the
os.path.isfile oracle (the filesystem is read-only during the scenario).
When the first positional argument is a string naming an existing file, the
dedup check runs: a path already tracked or already queued makes the call a
logged no-op.  Otherwise the path is tracked and the `(priority, task)` pair
is pushed; the push itself can raise TypeError (heap comparison of two
tasks with equal priorities). -/
def add_task (isfile : String → Bool) (priority : Int) (task_type : TaskType)
    (fid : Nat) (args : List Val) (callback : Bool) (st : BPState) : AddRes :=
  let dedupKey : Option String :=
    match args.head? with
    | some (Val.str s) => if isfile s then some s else none
    | _ => none
  let task : Task := ⟨task_type, fid, args, callback⟩
  match dedupKey with
  | some file_path =>
    if st.processed_files.contains file_path || is_processing_file st.task_queue file_path then
      AddRes.noop st
    else
      let st1 : BPState := { st with processed_files := file_path :: st.processed_files }
      match heappush st1.task_queue (priority, task) with
      | HRes.ok q _ => AddRes.added { st1 with task_queue := q }
      | HRes.typeErr q => AddRes.typeError { st1 with task_queue := q }
  | none =>
    match heappush st.task_queue (priority, task) with
    | HRes.ok q _ => AddRes.added { st with task_queue := q }
    | HRes.typeErr q => AddRes.typeError { st with task_queue := q }

/-- Events emitted by the run loop: the task_completed and task_failed
signals of background_processor.py lines 27-28. -/
inductive Event where
  | completed (t : TaskType) (result : String)
  | failed (t : TaskType) (msg : String)
deriving DecidableEq, Repr

/-- The str(e) of the TypeError raised when two equal-priority entries are
compared (modelled by an abstract constant message). -/
def typeErrorMsg : String := "unorderable Task instances"

/-- Result of one iteration of BackgroundProcessor.run: the new state, the
current value of the loop-local `task` variable (Python locals persist
across iterations, line 85 tests for it), the events emitted, and the task
bodies submitted to the executor during the iteration. -/
structure StepOut where
  st : BPState
  last : Option Task
  events : List Event
  executed : List Task
deriving DecidableEq, Repr

/-- One iteration of BackgroundProcessor.run (lines 63-86).  `exec` gives
the outcome of `executor.submit(task.func, ...).result()` for each task
(success result string, or the str of the raised exception).  The callback
call is abstract and modelled as non-raising.

* queue empty: `task_queue.get(timeout=1)` raises queue.Empty → continue.
* get succeeds: the body runs; on success a task_completed event is
  emitted; on failure a task_failed event is emitted and, when the first
  positional argument is a string, `_processed_files.discard(args[0])`.
* get raises TypeError (equal-priority heap comparison): the generic
  `except Exception` at lines 83-86 logs it and, when the loop-local
  `task` variable exists from a previous iteration, emits a stale
  task_failed event for it.  The queue list keeps the part-way mutated
  state heapq left behind. -/
def run_iteration (exec : Task → Except String String) (st : BPState)
    (last : Option Task) : StepOut :=
  if st.running = false then ⟨st, last, [], []⟩
  else if st.task_queue.isEmpty then ⟨st, last, [], []⟩
  else
    match heappop st.task_queue with
    | none => ⟨st, last, [], []⟩
    | some (HRes.typeErr q) =>
      ⟨{ st with task_queue := q }, last,
        (match last with
         | some t => [Event.failed t.type typeErrorMsg]
         | none => []), []⟩
    | some (HRes.ok q (_, task)) =>
      let st1 : BPState := { st with task_queue := q }
      match exec task with
      | Except.ok result =>
        ⟨st1, some task, [Event.completed task.type result], [task]⟩
      | Except.error msg =>
        let st2 : BPState :=
          match pathArg task with
          | some s =>
            { st1 with processed_files := st1.processed_files.filter (fun x => x ≠ s) }
          | none => st1
        ⟨st2, some task, [Event.failed task.type msg], [task]⟩

/-- Drain loop of BackgroundProcessor.stop (lines 91-96):
`while not empty: try: get_nowait(); log dropped; except: pass`.
Returns the final queue list and the tasks logged as dropped.  A
get_nowait that raises TypeError inside heappop is swallowed by the bare
except and logs nothing, while the queue has still lost an element. -/
def drain (heap : List Entry) : List Entry × List Task :=
  if heap.isEmpty then (heap, [])
  else
    match hpop : heappop heap with
    | none => (heap, [])
    | some (HRes.ok q e) =>
      let r := drain q
      (r.1, e.2 :: r.2)
    | some (HRes.typeErr q) => drain q
termination_by heap.length
decreasing_by
  all_goals
    have hlen := heappop_heap_length hpop
    simp [HRes.heap] at hlen
    omega

/-- BackgroundProcessor.stop (lines 88-98): clear the running flag, shut the
executor down (no effect on queued tasks), drain the queue logging dropped
tasks, clear dedup tracking.  Returns the final state and the tasks logged
as dropped; stop itself emits no completion or failure events. -/
def stop (st : BPState) : BPState × List Task :=
  let st1 : BPState := { st with running := false }
  let r := drain st1.task_queue
  ({ st1 with task_queue := r.1, processed_files := [] }, r.2)

/-- Filesystem state: files and directories carrying modification times.
Directories and files live in separate namespaces (a path is one or the
other). -/
structure FileSys where
  files : List (String × Int)
  dirs : List (String × Int)
deriving DecidableEq, Repr

/-- os.path.exists for a file path. -/
def FileSys.fileExists (fs : FileSys) (p : String) : Bool :=
  fs.files.any (fun e => e.1 == p)

/-- os.path.exists for a directory path. -/
def FileSys.dirExists (fs : FileSys) (p : String) : Bool :=
  fs.dirs.any (fun e => e.1 == p)

/-- os.path.getmtime for a file (0 when absent; only read under an
existence guard in the code). -/
def FileSys.fileMtime (fs : FileSys) (p : String) : Int :=
  ((fs.files.find? (fun e => e.1 == p)).map Prod.snd).getD 0

/-- os.path.getmtime for a directory. -/
def FileSys.dirMtime (fs : FileSys) (p : String) : Int :=
  ((fs.dirs.find? (fun e => e.1 == p)).map Prod.snd).getD 0

/-- os.remove. -/
def FileSys.removeFile (fs : FileSys) (p : String) : FileSys :=
  { fs with files := fs.files.filter (fun e => e.1 ≠ p) }

/-- shutil.rmtree (ignore_errors=True): missing directories are a no-op. -/
def FileSys.removeDir (fs : FileSys) (p : String) : FileSys :=
  { fs with dirs := fs.dirs.filter (fun e => e.1 ≠ p) }

/-- File creation (tempfile.NamedTemporaryFile / mkstemp) at time `now`. -/
def FileSys.createFile (fs : FileSys) (p : String) (now : Int) : FileSys :=
  { fs with files := (p, now) :: fs.files.filter (fun e => e.1 ≠ p) }

/-- Tracking state of a ResourceManager (resource_manager.py lines 22-30):
_temp_directories, _temp_files (duplicate-free lists standing for sets) and
the _cleanup_scheduled flag. -/
structure RMState where
  temp_directories : List String
  temp_files : List String
  cleanup_scheduled : Bool
deriving DecidableEq, Repr

/-- _max_resource_age (line 27). -/
def max_resource_age : Int := 3600

/-- ResourceManager.cleanup_file (lines 114-123): when the path is tracked,
remove it from disk if it exists (OS errors are logged and swallowed; the
model treats removal as succeeding) and always untrack it in the finally
block.  The Bool reports whether a disk removal happened. -/
def cleanup_file (st : RMState) (fs : FileSys) (file_path : String) :
    RMState × FileSys × Bool :=
  if st.temp_files.contains file_path then
    let removed := fs.fileExists file_path
    let fs1 := if removed then fs.removeFile file_path else fs
    ({ st with temp_files := st.temp_files.filter (fun x => x ≠ file_path) }, fs1, removed)
  else (st, fs, false)

/-- ResourceManager.cleanup_directory (lines 104-112): when the path is
tracked, shutil.rmtree(ignore_errors=True) it and untrack it in the finally
block.  The Bool reports whether the directory existed on disk. -/
def cleanup_directory (st : RMState) (fs : FileSys) (directory : String) :
    RMState × FileSys × Bool :=
  if st.temp_directories.contains directory then
    let removed := fs.dirExists directory
    ({ st with temp_directories := st.temp_directories.filter (fun x => x ≠ directory) },
      fs.removeDir directory, removed)
  else (st, fs, false)

/-- ResourceManager.temp_file (lines 74-83): NamedTemporaryFile(delete=False)
creates `name` on disk, the name is added to the tracked set, the body of the
with-block runs (modelled by its outcome `exc`: none for a normal return,
some message for an exception raised inside the scope), and the finally
clause calls cleanup_file; the exception, if any, propagates afterwards. -/
def temp_file (st : RMState) (fs : FileSys) (name : String) (now : Int)
    (exc : Option String) : RMState × FileSys × Option String :=
  let fs1 := fs.createFile name now
  let st1 : RMState :=
    { st with temp_files :=
        if st.temp_files.contains name then st.temp_files else name :: st.temp_files }
  let r := cleanup_file st1 fs1 name
  (r.1, r.2.1, exc)

/-- The age-gate of cleanup_all for a tracked directory:
`os.path.exists(d) and current_time - os.path.getmtime(d) > _max_resource_age`. -/
def staleDir (fs : FileSys) (now : Int) (d : String) : Bool :=
  fs.dirExists d && decide (now - fs.dirMtime d > max_resource_age)

/-- The age-gate of cleanup_all for a tracked file. -/
def staleFile (fs : FileSys) (now : Int) (p : String) : Bool :=
  fs.fileExists p && decide (now - fs.fileMtime p > max_resource_age)

/-- One iteration of the directory loop of cleanup_all (lines 132-134).
The third component accumulates the identifiers whose disk objects were
actually reclaimed. -/
def dirStep (now : Int) (acc : RMState × FileSys × List String) (d : String) :
    RMState × FileSys × List String :=
  if staleDir acc.2.1 now d then
    let r := cleanup_directory acc.1 acc.2.1 d
    (r.1, r.2.1, acc.2.2 ++ if r.2.2 then [d] else [])
  else acc

/-- One iteration of the file loop of cleanup_all (lines 135-137). -/
def fileStep (now : Int) (acc : RMState × FileSys × List String) (p : String) :
    RMState × FileSys × List String :=
  if staleFile acc.2.1 now p then
    let r := cleanup_file acc.1 acc.2.1 p
    (r.1, r.2.1, acc.2.2 ++ if r.2.2 then [p] else [])
  else acc

/-- ResourceManager.cleanup_all (lines 130-138): iterate a snapshot of the
tracked directories, then of the tracked files, reclaiming only records
that exist on disk with age strictly above _max_resource_age; finally clear
_cleanup_scheduled.  Returns the state, the filesystem, and the identifiers
reclaimed from disk. -/
def cleanup_all (st : RMState) (fs : FileSys) (current_time : Int) :
    RMState × FileSys × List String :=
  let a1 := st.temp_directories.foldl (dirStep current_time) (st, fs, [])
  let a2 := a1.1.temp_files.foldl (fileStep current_time) a1
  ({ a2.1 with cleanup_scheduled := false }, a2.2.1, a2.2.2)

/-- The attribute names assigned by ResourceManager.__init__ (lines 22-30). -/
def initAttrs : List String :=
  ["_temp_directories", "_temp_files", "_com_objects", "_cleanup_scheduled",
   "_max_resource_age", "_resource_timestamps", "_max_retries", "_retry_delay"]

/-- Outcome of a manage_com_object acquisition. -/
inductive ComOutcome where
  | attributeError
  | acquired (attempts : Nat) (sleeps : List Int)
  | failedAll (attempts : Nat) (sleeps : List Int) (lastError : String)
deriving DecidableEq, Repr

/-- The retry loop of manage_com_object (lines 36-52) in isolation:
`for attempt in range(max_retries)`, trying CoInitialize/DispatchEx each
round (outcome given by `tryAttempt`); success yields the handle; a failure
on the last attempt re-raises the error; earlier failures sleep
`retry_delay * 2 ** attempt` and retry.  `sleeps` records the waits
performed, in order. -/
def comRetryGo (tryAttempt : Nat → Except String Unit) (max_retries : Nat)
    (retry_delay : Int) (attempt : Nat) (sleeps : List Int) : ComOutcome :=
  if _h : attempt < max_retries then
    match tryAttempt attempt with
    | Except.ok _ => ComOutcome.acquired (attempt + 1) sleeps
    | Except.error e =>
      if attempt = max_retries - 1 then
        ComOutcome.failedAll (attempt + 1) sleeps e
      else
        comRetryGo tryAttempt max_retries retry_delay (attempt + 1)
          (sleeps ++ [retry_delay * 2 ^ attempt])
  else
    ComOutcome.failedAll attempt sleeps ""
termination_by max_retries - attempt
decreasing_by omega

/-- ResourceManager.manage_com_object (lines 32-61): entering the context
manager first evaluates `with self._temp_files_lock:`.  On a manager built
by __init__ that attribute was never assigned, so the lookup raises
AttributeError before any connection attempt; were it present, the retry
loop would run with _max_retries = 3 and _retry_delay = 1 (lines 29-30). -/
def manage_com_object (attrs : List String)
    (tryAttempt : Nat → Except String Unit) : ComOutcome :=
  if attrs.contains "_temp_files_lock" then
    comRetryGo tryAttempt 3 1 0 []
  else
    ComOutcome.attributeError

/-- Pushing onto an empty heap succeeds with a singleton list. -/
theorem heappush_nil (e : Entry) : heappush [] e = HRes.ok [e] () := by
  simp [heappush, siftdownGo]

/-- Pushing onto a singleton heap with a strictly smaller priority swaps. -/
theorem heappush_one_lt {a b : Entry} (h : b.1 < a.1) :
    heappush [a] b = HRes.ok [b, a] () := by
  have hne : ¬ b.1 = a.1 := by omega
  have hlt : b.1 < a.1 := h
  simp [heappush, siftdownGo, entryLt, hne, hlt]

/-- Pushing onto a singleton heap with a strictly larger priority appends. -/
theorem heappush_one_gt {a b : Entry} (h : a.1 < b.1) :
    heappush [a] b = HRes.ok [a, b] () := by
  have hne : ¬ b.1 = a.1 := by omega
  have hnlt : ¬ b.1 < a.1 := by omega
  simp [heappush, siftdownGo, entryLt, hne, hnlt]

/-- Popping a two-element heap returns the root without any comparison. -/
theorem heappop_two (a b : Entry) : heappop [a, b] = some (HRes.ok [b] a) := by
  simp [heappop, siftup, siftupGo, siftdownGo]

/-- Popping a singleton heap returns its element. -/
theorem heappop_one (a : Entry) : heappop [a] = some (HRes.ok [] a) := by
  simp [heappop]

/-- A running processor with a clean two-entry queue dispatches the root. -/
theorem run_iteration_two (exec : Task → Except String String) (st : BPState)
    (a b : Entry) (last : Option Task)
    (hrun : st.running = true) (hq : st.task_queue = [a, b]) :
    (run_iteration exec st last).executed = [a.2]
    ∧ (run_iteration exec st last).st.task_queue = [b]
    ∧ (run_iteration exec st last).st.running = true := by
  cases hex : exec a.2 with
  | ok r => simp [run_iteration, hrun, hq, heappop_two, hex]
  | error m =>
    cases hpa : pathArg a.2 with
    | none => simp [run_iteration, hrun, hq, heappop_two, hex, hpa]
    | some s => simp [run_iteration, hrun, hq, heappop_two, hex, hpa]

/-- A running processor with a singleton queue dispatches its entry. -/
theorem run_iteration_one (exec : Task → Except String String) (st : BPState)
    (a : Entry) (last : Option Task)
    (hrun : st.running = true) (hq : st.task_queue = [a]) :
    (run_iteration exec st last).executed = [a.2]
    ∧ (run_iteration exec st last).st.task_queue = []
    ∧ (run_iteration exec st last).st.running = true := by
  cases hex : exec a.2 with
  | ok r => simp [run_iteration, hrun, hq, heappop_one, hex]
  | error m =>
    cases hpa : pathArg a.2 with
    | none => simp [run_iteration, hrun, hq, heappop_one, hex, hpa]
    | some s => simp [run_iteration, hrun, hq, heappop_one, hex, hpa]

/-- drain on the empty queue stops. -/
theorem drain_nil : drain [] = ([], []) := by
  rw [drain]
  simp

/-- drain unfolding when get_nowait succeeds: the task is logged dropped. -/
theorem drain_ok {heap q : List Entry} {e : Entry} (hne : heap.isEmpty = false)
    (hp : heappop heap = some (HRes.ok q e)) :
    drain heap = ((drain q).1, e.2 :: (drain q).2) := by
  rw [drain]
  simp only [hne, Bool.false_eq_true, if_false]
  split
  · rename_i heq
    rw [hp] at heq
    exact Option.noConfusion heq
  · rename_i q2 e2 heq
    rw [hp] at heq
    injection heq with h
    injection h with h1 h2
    subst h1
    subst h2
    rfl
  · rename_i q2 heq
    rw [hp] at heq
    injection heq with h
    exact HRes.noConfusion h

/-- drain unfolding when get_nowait raises TypeError: the bare except
swallows it, nothing is logged, and an entry has still been lost. -/
theorem drain_typeErr {heap q : List Entry} (hne : heap.isEmpty = false)
    (hp : heappop heap = some (HRes.typeErr q)) :
    drain heap = drain q := by
  rw [drain]
  simp only [hne, Bool.false_eq_true, if_false]
  split
  · rename_i heq
    rw [hp] at heq
    exact Option.noConfusion heq
  · rename_i q2 e2 heq
    rw [hp] at heq
    injection heq with h
    exact HRes.noConfusion h
  · rename_i q2 heq
    rw [hp] at heq
    injection heq with h
    injection h with h1
    subst h1
    rfl

/-- The three tasks of the drain-on-stop scenario. -/
def dropTaskA : Task := ⟨TaskType.FILE_CONVERSION, 1, [], false⟩

def dropTaskB : Task := ⟨TaskType.TEXT_EXTRACTION, 2, [], false⟩

def dropTaskC : Task := ⟨TaskType.TEXT_EXTRACTION, 3, [], false⟩

/-- C3 (counterexample evaluation): enqueueing two tasks with the same
priority 1 on a fresh processor makes the second task_queue.put raise
TypeError (the `(priority, task)` tuple comparison falls through to the
Task dataclass, which defines no ordering), instead of enqueueing the
second task behind the first. -/
theorem equal_priority_enqueue_type_error :
    add_task (fun _ => false) 1 TaskType.TEXT_EXTRACTION 2 [] false
      (add_task (fun _ => false) 1 TaskType.FILE_CONVERSION 1 [] false BPState.init).st
    = AddRes.typeError
        ⟨[(1, ⟨TaskType.FILE_CONVERSION, 1, [], false⟩),
          (1, ⟨TaskType.TEXT_EXTRACTION, 2, [], false⟩)], true, []⟩ := by
  simp [add_task, AddRes.st, BPState.init, heappush, siftdownGo, entryLt]

/-- C4 (failing-input evaluation): every manage_com_object call on a
ResourceManager built by __init__ raises AttributeError when entering
`with self._temp_files_lock:` (the attribute is never assigned anywhere),
before any connection attempt, backoff wait, or error propagation can
happen. -/
theorem manage_com_object_attribute_error
    (tryAttempt : Nat → Except String Unit) :
    manage_com_object initAttrs tryAttempt = ComOutcome.attributeError := by
  have h : initAttrs.contains "_temp_files_lock" = false := by decide
  unfold manage_com_object
  rw [h]
  simp

/-- C6 (failing-input evaluation): three tasks with priorities 1, 5, 5 are
enqueued successfully, yet stop() drains only two of them: the first
get_nowait raises TypeError inside heappop (equal-priority sift comparison),
the bare except swallows it, and the priority-1 task is removed from the
queue without a "dropped" log entry.  Only tasks B and C are logged; no
completion or failure event is emitted, running becomes false and dedup
tracking is cleared. -/
theorem stop_drain_silently_loses_task :
    add_task (fun _ => false) 5 TaskType.TEXT_EXTRACTION 3 [] false
        (add_task (fun _ => false) 5 TaskType.TEXT_EXTRACTION 2 [] false
          (add_task (fun _ => false) 1 TaskType.FILE_CONVERSION 1 [] false
            BPState.init).st).st
      = AddRes.added ⟨[(1, dropTaskA), (5, dropTaskB), (5, dropTaskC)], true, []⟩
    ∧ stop ⟨[(1, dropTaskA), (5, dropTaskB), (5, dropTaskC)], true, []⟩
      = (⟨[], false, []⟩, [dropTaskB, dropTaskC]) := by
  constructor
  · simp [add_task, AddRes.st, BPState.init, heappush, siftdownGo, entryLt,
      dropTaskA, dropTaskB, dropTaskC]
  · have hp3 : heappop [(1, dropTaskA), (5, dropTaskB), (5, dropTaskC)]
        = some (HRes.typeErr [(5, dropTaskB), (5, dropTaskC)]) := by
      simp [heappop, siftup, siftupGo, siftdownGo, entryLt,
        dropTaskA, dropTaskB, dropTaskC]
    have hd4 : drain [(1, dropTaskA), (5, dropTaskB), (5, dropTaskC)]
        = ([], [dropTaskB, dropTaskC]) := by
      rw [drain_typeErr (by simp) hp3,
        drain_ok (by simp) (heappop_two (5, dropTaskB) (5, dropTaskC)),
        drain_ok (by simp) (heappop_one (5, dropTaskC)), drain_nil]
    simp [stop, hd4]

/-- A freshly created file exists. -/
theorem fileExists_createFile (fs : FileSys) (name : String) (now : Int) :
    (fs.createFile name now).fileExists name = true := by
  simp [FileSys.createFile, FileSys.fileExists]

/-- A removed file no longer exists. -/
theorem fileExists_removeFile (fs : FileSys) (name : String) :
    (fs.removeFile name).fileExists name = false := by
  simp [FileSys.removeFile, FileSys.fileExists, List.mem_filter]

/-- Filtering a name out of a tracked set untracks it. -/
theorem contains_filter_ne_self (l : List String) (name : String) :
    (l.filter (fun x => x ≠ name)).contains name = false := by
  simp [List.contains_eq_any_beq, List.mem_filter]

/-- C7: for every use of the scoped temp file, the allocated file is
registered at entry and is removed from disk and unregistered when the
scope exits, whatever the outcome of the body (normal return `exc = none`
or an exception `exc = some msg`, which propagates unchanged). -/
theorem temp_file_scope_reclaims (st : RMState) (fs : FileSys) (name : String)
    (now : Int) (exc : Option String) :
    (temp_file st fs name now exc).2.1.fileExists name = false
    ∧ (temp_file st fs name now exc).1.temp_files.contains name = false
    ∧ (temp_file st fs name now exc).2.2 = exc := by
  by_cases h : name ∈ st.temp_files
  · simp [temp_file, cleanup_file, h, FileSys.createFile, FileSys.fileExists,
      FileSys.removeFile, List.mem_filter]
  · simp [temp_file, cleanup_file, h, FileSys.createFile, FileSys.fileExists,
      FileSys.removeFile, List.mem_filter]

/-- C1: while a task for an existing file `p` is queued or in flight (its
path is dedup-tracked), every further add_task whose first argument is `p`
is a no-op that returns without adding a task, and the queue holds exactly
one entry for `p`. -/
theorem dedup_second_enqueue_noop
    (isfile : String → Bool) (p : String)
    (pri1 pri2 : Int) (ty1 ty2 : TaskType) (f1 f2 : Nat)
    (rest1 rest2 : List Val) (cb1 cb2 : Bool) (st st1 : BPState)
    (hfile : isfile p = true)
    (hadd : add_task isfile pri1 ty1 f1 (Val.str p :: rest1) cb1 st
      = AddRes.added st1) :
    add_task isfile pri2 ty2 f2 (Val.str p :: rest2) cb2 st1 = AddRes.noop st1
    ∧ st1.task_queue.countP (fun e => pathArg e.2 == some p) = 1 := by
  simp only [add_task, List.head?_cons, hfile, if_true] at hadd
  split at hadd
  · simp at hadd
  · rename_i hcond
    split at hadd
    · rename_i q hval hpush
      injection hadd with hadd
      subst hadd
      simp only [Bool.or_eq_true, not_or, Bool.not_eq_true] at hcond
      constructor
      · simp [add_task, hfile]
      · have hzero : st.task_queue.countP (fun e => pathArg e.2 == some p) = 0 := by
          rw [List.countP_eq_zero]
          intro a ha
          have := List.any_eq_false.mp hcond.2 a ha
          simpa using this
        have hone : q.countP (fun e => pathArg e.2 == some p)
            = st.task_queue.countP (fun e => pathArg e.2 == some p) + 1 := by
          have h0 := heappush_countP (fun e => pathArg e.2 == some p) hpush
          simpa [pathArg] using h0
        show q.countP (fun e => pathArg e.2 == some p) = 1
        rw [hone, hzero]
    · simp at hadd

/-- C1 witness: concrete dedup scenario for the existing file f.pdf. -/
theorem dedup_second_enqueue_noop_witness :
    ((fun s => s == "f.pdf") "f.pdf" = true)
    ∧ (add_task (fun s => s == "f.pdf") 1 TaskType.FILE_CONVERSION 1
          [Val.str "f.pdf"] false BPState.init
        = AddRes.added
            ⟨[(1, ⟨TaskType.FILE_CONVERSION, 1, [Val.str "f.pdf"], false⟩)],
              true, ["f.pdf"]⟩)
    ∧ (add_task (fun s => s == "f.pdf") 5 TaskType.TEXT_EXTRACTION 2
          [Val.str "f.pdf"] false
          ⟨[(1, ⟨TaskType.FILE_CONVERSION, 1, [Val.str "f.pdf"], false⟩)],
            true, ["f.pdf"]⟩
        = AddRes.noop
            ⟨[(1, ⟨TaskType.FILE_CONVERSION, 1, [Val.str "f.pdf"], false⟩)],
              true, ["f.pdf"]⟩)
    ∧ (⟨[(1, ⟨TaskType.FILE_CONVERSION, 1, [Val.str "f.pdf"], false⟩)],
          true, ["f.pdf"]⟩ : BPState).task_queue.countP
        (fun e => pathArg e.2 == some "f.pdf") = 1 := by
  have hfile : (fun s => s == "f.pdf") "f.pdf" = true := by decide
  have hadd : add_task (fun s => s == "f.pdf") 1 TaskType.FILE_CONVERSION 1
      [Val.str "f.pdf"] false BPState.init
      = AddRes.added
          ⟨[(1, ⟨TaskType.FILE_CONVERSION, 1, [Val.str "f.pdf"], false⟩)],
            true, ["f.pdf"]⟩ := by
    simp [add_task, BPState.init, heappush_nil, is_processing_file]
  have hmain := dedup_second_enqueue_noop (fun s => s == "f.pdf") "f.pdf"
    1 5 TaskType.FILE_CONVERSION TaskType.TEXT_EXTRACTION 1 2 [] [] false false
    BPState.init _ hfile hadd
  exact ⟨hfile, hadd, hmain.1, hmain.2⟩

/-- The processor state after enqueueing two argument-free tasks on a fresh
processor (used by the priority-ordering claim). -/
def twoTaskState (isfile : String → Bool) (p1 p2 : Int) (ty1 ty2 : TaskType)
    (f1 f2 : Nat) (cb1 cb2 : Bool) : BPState :=
  (add_task isfile p2 ty2 f2 [] cb2
    ((add_task isfile p1 ty1 f1 [] cb1 BPState.init).st)).st

/-- C2: with two tasks of distinct priorities both in the queue, the run
loop dispatches the lower-priority-number task first, then the other,
whatever the enqueue order (the enqueue order is the quantified pair
(p1, p2) with the if selecting the smaller). -/
theorem priority_ordering_dispatch
    (isfile : String → Bool) (exec : Task → Except String String)
    (p1 p2 : Int) (ty1 ty2 : TaskType) (f1 f2 : Nat) (cb1 cb2 : Bool)
    (hne : p1 ≠ p2) :
    (run_iteration exec (twoTaskState isfile p1 p2 ty1 ty2 f1 f2 cb1 cb2) none).executed
      = [if p1 < p2 then (⟨ty1, f1, [], cb1⟩ : Task) else ⟨ty2, f2, [], cb2⟩]
    ∧ (run_iteration exec
        (run_iteration exec (twoTaskState isfile p1 p2 ty1 ty2 f1 f2 cb1 cb2) none).st
        (run_iteration exec (twoTaskState isfile p1 p2 ty1 ty2 f1 f2 cb1 cb2) none).last).executed
      = [if p1 < p2 then (⟨ty2, f2, [], cb2⟩ : Task) else ⟨ty1, f1, [], cb1⟩] := by
  rcases lt_or_gt_of_ne hne with h | h
  · have hpush2 := @heappush_one_gt (p1, (⟨ty1, f1, [], cb1⟩ : Task))
      (p2, (⟨ty2, f2, [], cb2⟩ : Task)) h
    have hstq : twoTaskState isfile p1 p2 ty1 ty2 f1 f2 cb1 cb2
        = ⟨[(p1, ⟨ty1, f1, [], cb1⟩), (p2, ⟨ty2, f2, [], cb2⟩)], true, []⟩ := by
      simp [twoTaskState, add_task, AddRes.st, BPState.init, heappush_nil, hpush2]
    have h1 := run_iteration_two exec
      (twoTaskState isfile p1 p2 ty1 ty2 f1 f2 cb1 cb2)
      (p1, ⟨ty1, f1, [], cb1⟩) (p2, ⟨ty2, f2, [], cb2⟩) none
      (by rw [hstq]) (by rw [hstq])
    have h2 := run_iteration_one exec
      (run_iteration exec (twoTaskState isfile p1 p2 ty1 ty2 f1 f2 cb1 cb2) none).st
      (p2, ⟨ty2, f2, [], cb2⟩)
      (run_iteration exec (twoTaskState isfile p1 p2 ty1 ty2 f1 f2 cb1 cb2) none).last
      h1.2.2 h1.2.1
    rw [if_pos h, if_pos h]
    exact ⟨h1.1, h2.1⟩
  · have hlt : p2 < p1 := h
    have hnlt : ¬ p1 < p2 := by omega
    have hpush2 := @heappush_one_lt (p1, (⟨ty1, f1, [], cb1⟩ : Task))
      (p2, (⟨ty2, f2, [], cb2⟩ : Task)) hlt
    have hstq : twoTaskState isfile p1 p2 ty1 ty2 f1 f2 cb1 cb2
        = ⟨[(p2, ⟨ty2, f2, [], cb2⟩), (p1, ⟨ty1, f1, [], cb1⟩)], true, []⟩ := by
      simp [twoTaskState, add_task, AddRes.st, BPState.init, heappush_nil, hpush2]
    have h1 := run_iteration_two exec
      (twoTaskState isfile p1 p2 ty1 ty2 f1 f2 cb1 cb2)
      (p2, ⟨ty2, f2, [], cb2⟩) (p1, ⟨ty1, f1, [], cb1⟩) none
      (by rw [hstq]) (by rw [hstq])
    have h2 := run_iteration_one exec
      (run_iteration exec (twoTaskState isfile p1 p2 ty1 ty2 f1 f2 cb1 cb2) none).st
      (p1, ⟨ty1, f1, [], cb1⟩)
      (run_iteration exec (twoTaskState isfile p1 p2 ty1 ty2 f1 f2 cb1 cb2) none).last
      h1.2.2 h1.2.1
    rw [if_neg hnlt, if_neg hnlt]
    exact ⟨h1.1, h2.1⟩

/-- C2 witness: priorities 5 then 1; the priority-1 task, although enqueued
second, is dispatched first. -/
theorem priority_ordering_dispatch_witness :
    (run_iteration (fun _ => Except.ok "done")
        (twoTaskState (fun _ => false) 5 1 TaskType.FILE_CONVERSION
          TaskType.TEXT_EXTRACTION 1 2 false false) none).executed
      = [if (5 : Int) < 1 then (⟨TaskType.FILE_CONVERSION, 1, [], false⟩ : Task)
         else ⟨TaskType.TEXT_EXTRACTION, 2, [], false⟩]
    ∧ (run_iteration (fun _ => Except.ok "done")
        (run_iteration (fun _ => Except.ok "done")
          (twoTaskState (fun _ => false) 5 1 TaskType.FILE_CONVERSION
            TaskType.TEXT_EXTRACTION 1 2 false false) none).st
        (run_iteration (fun _ => Except.ok "done")
          (twoTaskState (fun _ => false) 5 1 TaskType.FILE_CONVERSION
            TaskType.TEXT_EXTRACTION 1 2 false false) none).last).executed
      = [if (5 : Int) < 1 then (⟨TaskType.TEXT_EXTRACTION, 2, [], false⟩ : Task)
         else ⟨TaskType.FILE_CONVERSION, 1, [], false⟩] :=
  priority_ordering_dispatch (fun _ => false) (fun _ => Except.ok "done")
    5 1 TaskType.FILE_CONVERSION TaskType.TEXT_EXTRACTION 1 2 false false
    (by decide)

/-- C5: a task whose body raises does not crash the loop; a task_failed
event carrying (kind, error message) is emitted, the dedup tracking of its
string path is discarded, and a later enqueue for the same path is accepted
and dispatched. -/
theorem failure_emits_event_and_releases_dedup
    (isfile : String → Bool) (exec : Task → Except String String)
    (st : BPState) (pri : Int) (t : Task) (p : String) (msg : String)
    (last : Option Task)
    (hrun : st.running = true)
    (hq : st.task_queue = [(pri, t)])
    (hpath : pathArg t = some p)
    (hfile : isfile p = true)
    (hex : exec t = Except.error msg) :
    (run_iteration exec st last).events = [Event.failed t.type msg]
    ∧ (run_iteration exec st last).executed = [t]
    ∧ (run_iteration exec st last).st.processed_files.contains p = false
    ∧ ∀ pri2 ty2 f2 rest2 cb2 (exec2 : Task → Except String String),
        add_task isfile pri2 ty2 f2 (Val.str p :: rest2) cb2
            (run_iteration exec st last).st
          = AddRes.added
              ⟨[(pri2, ⟨ty2, f2, Val.str p :: rest2, cb2⟩)], true,
                p :: st.processed_files.filter (fun x => x ≠ p)⟩
        ∧ (run_iteration exec2
              (⟨[(pri2, ⟨ty2, f2, Val.str p :: rest2, cb2⟩)], true,
                p :: st.processed_files.filter (fun x => x ≠ p)⟩ : BPState)
              none).executed
          = [⟨ty2, f2, Val.str p :: rest2, cb2⟩] := by
  have hstep : run_iteration exec st last
      = ⟨⟨[], st.running, st.processed_files.filter (fun x => x ≠ p)⟩,
          some t, [Event.failed t.type msg], [t]⟩ := by
    simp [run_iteration, hrun, hq, heappop_one, hex, hpath]
  rw [hstep]
  refine ⟨rfl, rfl, contains_filter_ne_self st.processed_files p, ?_⟩
  intro pri2 ty2 f2 rest2 cb2 exec2
  constructor
  · simp [add_task, hfile, is_processing_file, heappush_nil, hrun]
  · exact (run_iteration_one exec2 _ (pri2, ⟨ty2, f2, Val.str p :: rest2, cb2⟩)
      none rfl rfl).1

/-- C5 witness: concrete failing task for f.pdf, retried successfully. -/
theorem failure_emits_event_and_releases_dedup_witness :
    (run_iteration (fun _ => Except.error "boom")
        ⟨[(1, ⟨TaskType.FILE_CONVERSION, 1, [Val.str "f.pdf"], false⟩)],
          true, ["f.pdf"]⟩ none).events
      = [Event.failed TaskType.FILE_CONVERSION "boom"]
    ∧ (add_task (fun s => s == "f.pdf") 2 TaskType.FILE_CONVERSION 2
          [Val.str "f.pdf"] false
          (run_iteration (fun _ => Except.error "boom")
            ⟨[(1, ⟨TaskType.FILE_CONVERSION, 1, [Val.str "f.pdf"], false⟩)],
              true, ["f.pdf"]⟩ none).st
        = AddRes.added
            ⟨[(2, ⟨TaskType.FILE_CONVERSION, 2, [Val.str "f.pdf"], false⟩)], true,
              ["f.pdf"].filter (fun x => x ≠ "f.pdf") |>.cons "f.pdf"⟩) := by
  have hmain := failure_emits_event_and_releases_dedup (fun s => s == "f.pdf")
    (fun _ => Except.error "boom")
    ⟨[(1, ⟨TaskType.FILE_CONVERSION, 1, [Val.str "f.pdf"], false⟩)], true, ["f.pdf"]⟩
    1 ⟨TaskType.FILE_CONVERSION, 1, [Val.str "f.pdf"], false⟩ "f.pdf" "boom" none
    rfl rfl rfl (by decide) rfl
  exact ⟨hmain.1, (hmain.2.2.2 2 TaskType.FILE_CONVERSION 2 [] false
    (fun _ => Except.ok "r")).1⟩

/-- C10: after a task for a tracked existing file succeeds, the dedup set
is unchanged (the path stays tracked), a completion event is emitted, every
later enqueue for the path is rejected as a duplicate, and only stop()
clears the set. -/
theorem success_keeps_dedup_until_stop
    (isfile : String → Bool) (exec : Task → Except String String)
    (st : BPState) (pri : Int) (t : Task) (p : String) (r : String)
    (last : Option Task)
    (hrun : st.running = true)
    (hq : st.task_queue = [(pri, t)])
    (hpath : pathArg t = some p)
    (hfile : isfile p = true)
    (hex : exec t = Except.ok r)
    (hproc : p ∈ st.processed_files) :
    (run_iteration exec st last).st.processed_files = st.processed_files
    ∧ (run_iteration exec st last).events = [Event.completed t.type r]
    ∧ (∀ pri2 ty2 f2 rest2 cb2,
        add_task isfile pri2 ty2 f2 (Val.str p :: rest2) cb2
            (run_iteration exec st last).st
          = AddRes.noop ((run_iteration exec st last).st))
    ∧ (stop (run_iteration exec st last).st).1.processed_files = [] := by
  have hstep : run_iteration exec st last
      = ⟨⟨[], st.running, st.processed_files⟩, some t,
          [Event.completed t.type r], [t]⟩ := by
    simp [run_iteration, hrun, hq, heappop_one, hex]
  rw [hstep]
  refine ⟨rfl, rfl, ?_, ?_⟩
  · intro pri2 ty2 f2 rest2 cb2
    simp [add_task, hfile, hproc]
  · simp [stop, drain_nil]

/-- C10 witness: concrete successful task for f.pdf; the retry is refused
until stop clears the tracking. -/
theorem success_keeps_dedup_until_stop_witness :
    (run_iteration (fun _ => Except.ok "out")
        ⟨[(1, ⟨TaskType.FILE_CONVERSION, 1, [Val.str "f.pdf"], false⟩)],
          true, ["f.pdf"]⟩ none).st.processed_files = ["f.pdf"]
    ∧ (add_task (fun s => s == "f.pdf") 2 TaskType.FILE_CONVERSION 2
          [Val.str "f.pdf"] false
          (run_iteration (fun _ => Except.ok "out")
            ⟨[(1, ⟨TaskType.FILE_CONVERSION, 1, [Val.str "f.pdf"], false⟩)],
              true, ["f.pdf"]⟩ none).st
        = AddRes.noop
            ((run_iteration (fun _ => Except.ok "out")
              ⟨[(1, ⟨TaskType.FILE_CONVERSION, 1, [Val.str "f.pdf"], false⟩)],
                true, ["f.pdf"]⟩ none).st))
    ∧ (stop (run_iteration (fun _ => Except.ok "out")
          ⟨[(1, ⟨TaskType.FILE_CONVERSION, 1, [Val.str "f.pdf"], false⟩)],
            true, ["f.pdf"]⟩ none).st).1.processed_files = [] := by
  have hmain := success_keeps_dedup_until_stop (fun s => s == "f.pdf")
    (fun _ => Except.ok "out")
    ⟨[(1, ⟨TaskType.FILE_CONVERSION, 1, [Val.str "f.pdf"], false⟩)], true, ["f.pdf"]⟩
    1 ⟨TaskType.FILE_CONVERSION, 1, [Val.str "f.pdf"], false⟩ "f.pdf" "out" none
    rfl rfl rfl (by decide) rfl (by simp)
  exact ⟨hmain.1, hmain.2.2.1 2 TaskType.FILE_CONVERSION 2 [] false, hmain.2.2.2⟩

/-- A filter that keeps every entry with key `x` does not change whether an
entry with key `x` is found. -/
theorem any_filter_keep (l : List (String × Int)) (q : String × Int → Bool)
    (x : String) (h : ∀ e ∈ l, e.1 = x → q e = true) :
    (l.filter q).any (fun e => e.1 == x) = l.any (fun e => e.1 == x) := by
  induction l with
  | nil => rfl
  | cons a l ih =>
    have ihq := ih (fun e he hex => h e (List.mem_cons_of_mem a he) hex)
    by_cases hax : a.1 = x
    · have hq : q a = true := h a (List.mem_cons_self a l) hax
      rw [List.filter_cons_of_pos hq]
      simp [hax]
    · by_cases hq : q a = true
      · rw [List.filter_cons_of_pos hq]
        simp [hax, ihq]
      · rw [List.filter_cons_of_neg (by simpa using hq)]
        simp [hax, ihq]

/-- A filter that keeps every entry with key `x` does not change the first
entry found for key `x`. -/
theorem find_filter_keep (l : List (String × Int)) (q : String × Int → Bool)
    (x : String) (h : ∀ e ∈ l, e.1 = x → q e = true) :
    (l.filter q).find? (fun e => e.1 == x) = l.find? (fun e => e.1 == x) := by
  induction l with
  | nil => rfl
  | cons a l ih =>
    have ihq := ih (fun e he hex => h e (List.mem_cons_of_mem a he) hex)
    by_cases hax : a.1 = x
    · have hq : q a = true := h a (List.mem_cons_self a l) hax
      rw [List.filter_cons_of_pos hq]
      rw [List.find?_cons_of_pos _ (by simp [hax]), List.find?_cons_of_pos _ (by simp [hax])]
    · by_cases hq : q a = true
      · rw [List.filter_cons_of_pos hq]
        rw [List.find?_cons_of_neg _ (by simp [hax]), List.find?_cons_of_neg _ (by simp [hax]), ihq]
      · rw [List.filter_cons_of_neg (by simpa using hq)]
        rw [ihq, List.find?_cons_of_neg _ (by simp [hax])]

/-- staleDir is unchanged by a dirs filter that keeps every entry of the
inspected path. -/
theorem staleDir_filter_keep (fs : FileSys) (q : String × Int → Bool)
    (now : Int) (x : String) (h : ∀ e ∈ fs.dirs, e.1 = x → q e = true) :
    staleDir { fs with dirs := fs.dirs.filter q } now x = staleDir fs now x := by
  simp only [staleDir, FileSys.dirExists, FileSys.dirMtime]
  rw [any_filter_keep fs.dirs q x h]
  simp only [find_filter_keep fs.dirs q x h]

/-- staleFile is unchanged by a files filter that keeps every entry of the
inspected path. -/
theorem staleFile_filter_keep (fs : FileSys) (q : String × Int → Bool)
    (now : Int) (x : String) (h : ∀ e ∈ fs.files, e.1 = x → q e = true) :
    staleFile { fs with files := fs.files.filter q } now x = staleFile fs now x := by
  simp only [staleFile, FileSys.fileExists, FileSys.fileMtime]
  rw [any_filter_keep fs.files q x h]
  simp only [find_filter_keep fs.files q x h]

/-- staleDir of another path is unchanged by removing directory `d`. -/
theorem staleDir_removeDir_ne (fs : FileSys) (now : Int) (d x : String)
    (h : x ≠ d) : staleDir (fs.removeDir d) now x = staleDir fs now x := by
  have hrw : fs.removeDir d = { fs with dirs := fs.dirs.filter (fun e => e.1 ≠ d) } := rfl
  rw [hrw, staleDir_filter_keep]
  intro e _ hex
  simp [hex, h]

/-- staleFile of another path is unchanged by removing file `p`. -/
theorem staleFile_removeFile_ne (fs : FileSys) (now : Int) (p x : String)
    (h : x ≠ p) : staleFile (fs.removeFile p) now x = staleFile fs now x := by
  have hrw : fs.removeFile p = { fs with files := fs.files.filter (fun e => e.1 ≠ p) } := rfl
  rw [hrw, staleFile_filter_keep]
  intro e _ hex
  simp [hex, h]

/-- staleFile ignores the dirs component. -/
theorem staleFile_set_dirs (fs : FileSys) (D : List (String × Int)) (now : Int)
    (x : String) : staleFile { fs with dirs := D } now x = staleFile fs now x := rfl

/-- staleDir ignores the files component. -/
theorem staleDir_set_files (fs : FileSys) (F : List (String × Int)) (now : Int)
    (x : String) : staleDir { fs with files := F } now x = staleDir fs now x := rfl

/-- Characterization of the directory loop of cleanup_all over a
duplicate-free snapshot of tracked directories: exactly the snapshot
entries that are stale (exist on disk with age above the threshold) are
reclaimed; stale checks are against the filesystem at loop entry. -/
theorem dirs_foldl_spec (now : Int) :
    ∀ (l : List String) (st : RMState) (fs : FileSys) (recl : List String),
      l.Nodup →
      (∀ d ∈ l, d ∈ st.temp_directories) →
      l.foldl (dirStep now) (st, fs, recl)
        = ({ st with temp_directories :=
              st.temp_directories.filter (fun x => !(l.contains x && staleDir fs now x)) },
           { fs with dirs :=
              fs.dirs.filter (fun e => !(l.contains e.1 && staleDir fs now e.1)) },
           recl ++ l.filter (fun d => staleDir fs now d)) := by
  intro l
  induction l with
  | nil =>
    intro st fs recl _ _
    simp
  | cons d tl ih =>
    intro st fs recl hnd hsub
    have hd_mem : d ∈ st.temp_directories := hsub d (List.mem_cons_self d tl)
    have hd_tl : d ∉ tl := (List.nodup_cons.mp hnd).1
    have htl_nd : tl.Nodup := (List.nodup_cons.mp hnd).2
    rw [List.foldl_cons]
    cases hst : staleDir fs now d with
    | true =>
      have hex : fs.dirExists d = true := by
        have h0 := hst
        simp only [staleDir, Bool.and_eq_true] at h0
        exact h0.1
      have hstep : dirStep now (st, fs, recl) d
          = ({ st with temp_directories := st.temp_directories.filter (fun x => x ≠ d) },
             fs.removeDir d, recl ++ [d]) := by
        simp [dirStep, hst, cleanup_directory, hd_mem, hex]
      rw [hstep]
      have hsub2 : ∀ x ∈ tl, x ∈ st.temp_directories.filter (fun x => x ≠ d) := by
        intro x hx
        rw [List.mem_filter]
        refine ⟨hsub x (List.mem_cons_of_mem d hx), ?_⟩
        have hxd : x ≠ d := fun hc => hd_tl (hc ▸ hx)
        simp [hxd]
      rw [ih _ _ _ htl_nd hsub2]
      simp only [Prod.mk.injEq]
      refine ⟨?_, ?_, ?_⟩
      · congr 1
        rw [List.filter_filter]
        apply List.filter_congr
        intro x hx
        by_cases hxd : x = d
        · subst hxd
          simp [hst]
        · simp [staleDir_removeDir_ne fs now d x hxd, hxd]
      · congr 1
        have hd_eq : (fs.removeDir d).dirs = fs.dirs.filter (fun e => e.1 ≠ d) := rfl
        rw [hd_eq, List.filter_filter]
        apply List.filter_congr
        intro e he
        by_cases hed : e.1 = d
        · simp [hed, hst]
        · simp [staleDir_removeDir_ne fs now d e.1 hed, hed]
      · rw [List.filter_cons_of_pos hst]
        have hcg : tl.filter (fun x => staleDir (fs.removeDir d) now x)
            = tl.filter (fun x => staleDir fs now x) := by
          apply List.filter_congr
          intro x hx
          have hxd : x ≠ d := fun hc => hd_tl (hc ▸ hx)
          rw [staleDir_removeDir_ne fs now d x hxd]
        rw [hcg]
        simp
    | false =>
      have hstep : dirStep now (st, fs, recl) d = (st, fs, recl) := by
        simp [dirStep, hst]
      rw [hstep, ih _ _ _ htl_nd (fun x hx => hsub x (List.mem_cons_of_mem d hx))]
      simp only [Prod.mk.injEq]
      refine ⟨?_, ?_, ?_⟩
      · congr 1
        apply List.filter_congr
        intro x hx
        by_cases hxd : x = d
        · subst hxd
          simp [hst]
        · simp [hxd]
      · congr 1
        apply List.filter_congr
        intro e he
        by_cases hed : e.1 = d
        · simp [hed, hst]
        · simp [hed]
      · rw [List.filter_cons_of_neg (by simp [hst])]

/-- Characterization of the file loop of cleanup_all over a duplicate-free
snapshot of tracked files. -/
theorem files_foldl_spec (now : Int) :
    ∀ (l : List String) (st : RMState) (fs : FileSys) (recl : List String),
      l.Nodup →
      (∀ p ∈ l, p ∈ st.temp_files) →
      l.foldl (fileStep now) (st, fs, recl)
        = ({ st with temp_files :=
              st.temp_files.filter (fun x => !(l.contains x && staleFile fs now x)) },
           { fs with files :=
              fs.files.filter (fun e => !(l.contains e.1 && staleFile fs now e.1)) },
           recl ++ l.filter (fun p => staleFile fs now p)) := by
  intro l
  induction l with
  | nil =>
    intro st fs recl _ _
    simp
  | cons d tl ih =>
    intro st fs recl hnd hsub
    have hd_mem : d ∈ st.temp_files := hsub d (List.mem_cons_self d tl)
    have hd_tl : d ∉ tl := (List.nodup_cons.mp hnd).1
    have htl_nd : tl.Nodup := (List.nodup_cons.mp hnd).2
    rw [List.foldl_cons]
    cases hst : staleFile fs now d with
    | true =>
      have hex : fs.fileExists d = true := by
        have h0 := hst
        simp only [staleFile, Bool.and_eq_true] at h0
        exact h0.1
      have hstep : fileStep now (st, fs, recl) d
          = ({ st with temp_files := st.temp_files.filter (fun x => x ≠ d) },
             fs.removeFile d, recl ++ [d]) := by
        simp [fileStep, hst, cleanup_file, hd_mem, hex]
      rw [hstep]
      have hsub2 : ∀ x ∈ tl, x ∈ st.temp_files.filter (fun x => x ≠ d) := by
        intro x hx
        rw [List.mem_filter]
        refine ⟨hsub x (List.mem_cons_of_mem d hx), ?_⟩
        have hxd : x ≠ d := fun hc => hd_tl (hc ▸ hx)
        simp [hxd]
      rw [ih _ _ _ htl_nd hsub2]
      simp only [Prod.mk.injEq]
      refine ⟨?_, ?_, ?_⟩
      · congr 1
        rw [List.filter_filter]
        apply List.filter_congr
        intro x hx
        by_cases hxd : x = d
        · subst hxd
          simp [hst]
        · simp [staleFile_removeFile_ne fs now d x hxd, hxd]
      · congr 1
        have hd_eq : (fs.removeFile d).files = fs.files.filter (fun e => e.1 ≠ d) := rfl
        rw [hd_eq, List.filter_filter]
        apply List.filter_congr
        intro e he
        by_cases hed : e.1 = d
        · simp [hed, hst]
        · simp [staleFile_removeFile_ne fs now d e.1 hed, hed]
      · rw [List.filter_cons_of_pos hst]
        have hcg : tl.filter (fun x => staleFile (fs.removeFile d) now x)
            = tl.filter (fun x => staleFile fs now x) := by
          apply List.filter_congr
          intro x hx
          have hxd : x ≠ d := fun hc => hd_tl (hc ▸ hx)
          rw [staleFile_removeFile_ne fs now d x hxd]
        rw [hcg]
        simp
    | false =>
      have hstep : fileStep now (st, fs, recl) d = (st, fs, recl) := by
        simp [fileStep, hst]
      rw [hstep, ih _ _ _ htl_nd (fun x hx => hsub x (List.mem_cons_of_mem d hx))]
      simp only [Prod.mk.injEq]
      refine ⟨?_, ?_, ?_⟩
      · congr 1
        apply List.filter_congr
        intro x hx
        by_cases hxd : x = d
        · subst hxd
          simp [hst]
        · simp [hxd]
      · congr 1
        apply List.filter_congr
        intro e he
        by_cases hed : e.1 = d
        · simp [hed, hst]
        · simp [hed]
      · rw [List.filter_cons_of_neg (by simp [hst])]

/-- Full characterization of cleanup_all on a manager whose tracked sets are
duplicate-free: a tracked record is reclaimed exactly when it is stale
(exists on disk with age above _max_resource_age); everything else stays
tracked, untracked disk entries are untouched, and _cleanup_scheduled is
cleared. -/
theorem cleanup_all_spec (st : RMState) (fs : FileSys) (now : Int)
    (hnd : st.temp_directories.Nodup) (hnf : st.temp_files.Nodup) :
    cleanup_all st fs now
      = (⟨st.temp_directories.filter (fun x => !(staleDir fs now x)),
          st.temp_files.filter (fun x => !(staleFile fs now x)),
          false⟩,
         ⟨fs.files.filter (fun e => !(st.temp_files.contains e.1 && staleFile fs now e.1)),
          fs.dirs.filter (fun e => !(st.temp_directories.contains e.1 && staleDir fs now e.1))⟩,
         st.temp_directories.filter (fun x => staleDir fs now x)
           ++ st.temp_files.filter (fun x => staleFile fs now x)) := by
  unfold cleanup_all
  rw [dirs_foldl_spec now st.temp_directories st fs [] hnd (fun d hd => hd)]
  simp only []
  rw [files_foldl_spec now st.temp_files
    ⟨st.temp_directories.filter (fun x => !(st.temp_directories.contains x && staleDir fs now x)),
      st.temp_files, st.cleanup_scheduled⟩
    ⟨fs.files, fs.dirs.filter (fun e => !(st.temp_directories.contains e.1 && staleDir fs now e.1))⟩
    ([] ++ st.temp_directories.filter (fun d => staleDir fs now d))
    hnf (fun p hp => hp)]
  simp only [Prod.mk.injEq, RMState.mk.injEq, FileSys.mk.injEq, List.nil_append]
  refine ⟨⟨?_, ?_, trivial⟩, ⟨?_, trivial⟩, ?_⟩
  · apply List.filter_congr
    intro x hx
    simp [hx]
  · apply List.filter_congr
    intro x hx
    rw [staleFile_set_dirs]
    simp [hx]
  · apply List.filter_congr
    intro e he
    rw [staleFile_set_dirs]
  · congr 1

/-- staleDir through a double filter that keeps every dirs entry of `x`. -/
theorem staleDir_filter_both (fs : FileSys) (qf qd : String × Int → Bool)
    (now : Int) (x : String) (h : ∀ e ∈ fs.dirs, e.1 = x → qd e = true) :
    staleDir ⟨fs.files.filter qf, fs.dirs.filter qd⟩ now x = staleDir fs now x := by
  have h1 : staleDir ⟨fs.files.filter qf, fs.dirs.filter qd⟩ now x
      = staleDir ⟨fs.files, fs.dirs.filter qd⟩ now x := rfl
  rw [h1]
  exact staleDir_filter_keep fs qd now x h

/-- staleFile through a double filter that keeps every files entry of `x`. -/
theorem staleFile_filter_both (fs : FileSys) (qf qd : String × Int → Bool)
    (now : Int) (x : String) (h : ∀ e ∈ fs.files, e.1 = x → qf e = true) :
    staleFile ⟨fs.files.filter qf, fs.dirs.filter qd⟩ now x = staleFile fs now x := by
  have h1 : staleFile ⟨fs.files.filter qf, fs.dirs.filter qd⟩ now x
      = staleFile ⟨fs.files, fs.dirs⟩ now x
      → staleFile ⟨fs.files.filter qf, fs.dirs.filter qd⟩ now x = staleFile fs now x := by
    intro hx
    exact hx
  have h2 : staleFile ⟨fs.files.filter qf, fs.dirs.filter qd⟩ now x
      = staleFile ⟨fs.files.filter qf, fs.dirs⟩ now x := rfl
  rw [h2]
  exact staleFile_filter_keep fs qf now x h

/-- C8 (counterexample): cleanup_all is not a forced reclamation of every
tracked record: a tracked temp file whose age at the call is 0 (below the
3600 s threshold) is still tracked afterwards. -/
theorem cleanup_all_keeps_young_record :
    (cleanup_all ⟨[], ["t"], false⟩ ⟨[("t", 1000)], []⟩ 1000).1.temp_files = ["t"]
    ∧ (cleanup_all ⟨[], ["t"], false⟩ ⟨[("t", 1000)], []⟩ 1000).1.temp_files ≠ [] := by
  decide

/-- C8 (amended): cleanup_all reclaims exactly the tracked records that
exist on disk with modification age strictly above _max_resource_age;
younger or missing records stay tracked, untracked disk entries are
untouched, and the scheduled flag is cleared. -/
theorem cleanup_all_age_gated (st : RMState) (fs : FileSys) (now : Int)
    (hnd : st.temp_directories.Nodup) (hnf : st.temp_files.Nodup) :
    cleanup_all st fs now
      = (⟨st.temp_directories.filter (fun x => !(staleDir fs now x)),
          st.temp_files.filter (fun x => !(staleFile fs now x)),
          false⟩,
         ⟨fs.files.filter (fun e => !(st.temp_files.contains e.1 && staleFile fs now e.1)),
          fs.dirs.filter (fun e => !(st.temp_directories.contains e.1 && staleDir fs now e.1))⟩,
         st.temp_directories.filter (fun x => staleDir fs now x)
           ++ st.temp_files.filter (fun x => staleFile fs now x)) :=
  cleanup_all_spec st fs now hnd hnf

/-- C8 witness: a mixed population of stale, young, missing and untracked
records, reclaiming exactly the stale tracked ones. -/
theorem cleanup_all_age_gated_witness :
    (["d1", "d2"] : List String).Nodup ∧ (["f1", "f2"] : List String).Nodup
    ∧ cleanup_all ⟨["d1", "d2"], ["f1", "f2"], true⟩
        ⟨[("f1", 0), ("x", 0)], [("d1", 0), ("d2", 9000)]⟩ 10000
      = (⟨["d2"], ["f2"], false⟩, ⟨[("x", 0)], [("d2", 9000)]⟩, ["d1", "f1"]) := by
  refine ⟨by decide, by decide, ?_⟩
  rw [cleanup_all_age_gated ⟨["d1", "d2"], ["f1", "f2"], true⟩
    ⟨[("f1", 0), ("x", 0)], [("d1", 0), ("d2", 9000)]⟩ 10000 (by decide) (by decide)]
  decide

/-- C9: releasing the same record twice is a safe no-op (second cleanup_file
or cleanup_directory reclaims nothing and changes nothing), and running the
sweep twice in a row reclaims nothing the second time and leaves state and
filesystem unchanged, so no record is ever reclaimed twice. -/
theorem double_release_and_sweep_idempotent
    (st : RMState) (fs : FileSys) (now : Int)
    (hnd : st.temp_directories.Nodup) (hnf : st.temp_files.Nodup) :
    (∀ (st2 : RMState) (fs2 : FileSys) (p : String),
        cleanup_file (cleanup_file st2 fs2 p).1 (cleanup_file st2 fs2 p).2.1 p
          = ((cleanup_file st2 fs2 p).1, (cleanup_file st2 fs2 p).2.1, false))
    ∧ (∀ (st2 : RMState) (fs2 : FileSys) (d : String),
        cleanup_directory (cleanup_directory st2 fs2 d).1
            (cleanup_directory st2 fs2 d).2.1 d
          = ((cleanup_directory st2 fs2 d).1, (cleanup_directory st2 fs2 d).2.1, false))
    ∧ cleanup_all (cleanup_all st fs now).1 (cleanup_all st fs now).2.1 now
        = ((cleanup_all st fs now).1, (cleanup_all st fs now).2.1, []) := by
  refine ⟨?_, ?_, ?_⟩
  · intro st2 fs2 p
    by_cases h : p ∈ st2.temp_files
    · simp [cleanup_file, h, List.mem_filter]
    · simp [cleanup_file, h]
  · intro st2 fs2 d
    by_cases h : d ∈ st2.temp_directories
    · simp [cleanup_directory, h, List.mem_filter]
    · simp [cleanup_directory, h]
  · rw [cleanup_all_spec st fs now hnd hnf]
    simp only []
    have hdirF : ∀ x ∈ st.temp_directories.filter (fun x => !(staleDir fs now x)),
        staleDir
          ⟨fs.files.filter (fun e => !(st.temp_files.contains e.1 && staleFile fs now e.1)),
            fs.dirs.filter (fun e => !(st.temp_directories.contains e.1 && staleDir fs now e.1))⟩
          now x = false := by
      intro x hx
      rw [List.mem_filter] at hx
      have hfalse : staleDir fs now x = false := by simpa using hx.2
      rw [staleDir_filter_both fs _ _ now x (fun e he hex => by simp [hex, hfalse])]
      exact hfalse
    have hfileF : ∀ x ∈ st.temp_files.filter (fun x => !(staleFile fs now x)),
        staleFile
          ⟨fs.files.filter (fun e => !(st.temp_files.contains e.1 && staleFile fs now e.1)),
            fs.dirs.filter (fun e => !(st.temp_directories.contains e.1 && staleDir fs now e.1))⟩
          now x = false := by
      intro x hx
      rw [List.mem_filter] at hx
      have hfalse : staleFile fs now x = false := by simpa using hx.2
      rw [staleFile_filter_both fs _ _ now x (fun e he hex => by simp [hex, hfalse])]
      exact hfalse
    rw [cleanup_all_spec
      ⟨st.temp_directories.filter (fun x => !(staleDir fs now x)),
        st.temp_files.filter (fun x => !(staleFile fs now x)), false⟩
      ⟨fs.files.filter (fun e => !(st.temp_files.contains e.1 && staleFile fs now e.1)),
        fs.dirs.filter (fun e => !(st.temp_directories.contains e.1 && staleDir fs now e.1))⟩
      now (hnd.filter _) (hnf.filter _)]
    simp only [Prod.mk.injEq, RMState.mk.injEq, FileSys.mk.injEq]
    refine ⟨⟨?_, ?_, trivial⟩, ⟨?_, ?_⟩, ?_⟩
    · apply List.filter_eq_self.mpr
      intro x hx
      rw [hdirF x hx]
      rfl
    · apply List.filter_eq_self.mpr
      intro x hx
      rw [hfileF x hx]
      rfl
    · apply List.filter_eq_self.mpr
      intro e he
      by_cases hc : e.1 ∈ st.temp_files.filter (fun x => !(staleFile fs now x))
      · rw [hfileF e.1 hc]
        simp
      · simp [hc]
    · apply List.filter_eq_self.mpr
      intro e he
      by_cases hc : e.1 ∈ st.temp_directories.filter (fun x => !(staleDir fs now x))
      · rw [hdirF e.1 hc]
        simp
      · simp [hc]
    · rw [List.filter_eq_nil_iff.mpr (fun x hx => by rw [hdirF x hx]; simp),
        List.filter_eq_nil_iff.mpr (fun x hx => by rw [hfileF x hx]; simp)]
      rfl

/-- C9 witness: a concrete manager on which the double release and the
repeated sweep are no-ops. -/
theorem double_release_and_sweep_idempotent_witness :
    (["d1"] : List String).Nodup ∧ (["f1", "f2"] : List String).Nodup
    ∧ (cleanup_file
        (cleanup_file ⟨["d1"], ["f1", "f2"], false⟩ ⟨[("f1", 0)], [("d1", 0)]⟩ "f1").1
        (cleanup_file ⟨["d1"], ["f1", "f2"], false⟩ ⟨[("f1", 0)], [("d1", 0)]⟩ "f1").2.1 "f1"
      = ((cleanup_file ⟨["d1"], ["f1", "f2"], false⟩ ⟨[("f1", 0)], [("d1", 0)]⟩ "f1").1,
         (cleanup_file ⟨["d1"], ["f1", "f2"], false⟩ ⟨[("f1", 0)], [("d1", 0)]⟩ "f1").2.1,
         false))
    ∧ (cleanup_all
        (cleanup_all ⟨["d1"], ["f1", "f2"], false⟩ ⟨[("f1", 0)], [("d1", 0)]⟩ 10000).1
        (cleanup_all ⟨["d1"], ["f1", "f2"], false⟩ ⟨[("f1", 0)], [("d1", 0)]⟩ 10000).2.1 10000
      = ((cleanup_all ⟨["d1"], ["f1", "f2"], false⟩ ⟨[("f1", 0)], [("d1", 0)]⟩ 10000).1,
         (cleanup_all ⟨["d1"], ["f1", "f2"], false⟩ ⟨[("f1", 0)], [("d1", 0)]⟩ 10000).2.1,
         [])) := by
  have hmain := double_release_and_sweep_idempotent
    ⟨["d1"], ["f1", "f2"], false⟩ ⟨[("f1", 0)], [("d1", 0)]⟩ 10000
    (by decide) (by decide)
  exact ⟨by decide, by decide,
    hmain.1 ⟨["d1"], ["f1", "f2"], false⟩ ⟨[("f1", 0)], [("d1", 0)]⟩ "f1",
    hmain.2.2⟩

end DocHandler
